import Mathlib

/-!
# BoostSharedMemoryWrappers: a shallow embedding of `ipc.h` and `example.cpp`

The wrappers of `ipc.h` (`SharedBase`, `SharedMemory`, `SharedMutex`,
`SharedVector`, `SharedMap`) and the driver of `example.cpp` (`SC`, the server
loop and the client loop) are translated into functions over an explicit
`World`: the OS shared-memory namespace together with the contents of every
mapped Region.

The Boost.Interprocess primitives the wrappers call are not part of the
repository; they are modelled from the design specification (sections 4.B,
4.C, 4.E, 4.F and 6) and marked as such. Whether the allocations of a loop
iteration succeed is decided by the allocator of the Region (4.A); the loop
steps take that outcome as a parameter.
-/

namespace ipc

/-! ## Data model -/

/-- The error kinds of the design (section 7). -/
inductive Error where
  | AlreadyExists
  | NotFound
  | NameExists
  | NameMissing
  | TypeMismatch
  | OutOfRegionSpace
  | Timeout
  deriving DecidableEq, Repr

/-- An `ipc::string`: a byte string stored in the Region. -/
abbrev string := List Nat

/-- The bytes of an ASCII literal, as `ipc::string(lit, alloc)` stores them. -/
def str (s : String) : string := s.toList.map Char.toNat

/-- The struct `employee` of `example.cpp`. The `int` field only ever holds
copies of the server's counter, which runs from 1000 to 1007, so that no
arithmetic on it can overflow. -/
structure employee where
  _name : string
  _empNum : Int
  deriving DecidableEq, Repr

/-- Modelled from the spec: the recursive inter-process mutex (4.E), an owner
together with a hold count. -/
structure RMutex where
  owner : Option Nat
  count : Nat
  deriving DecidableEq, Repr

/-- The type tag recorded with a named entry (4.B). -/
inductive Tag where
  | vector
  | map
  | mutex
  deriving DecidableEq, Repr

/-- An object stored inside a Region, at the instantiations the driver uses:
`ipc::vector<employee>`, `ipc::map<ipc::string, int>` and
`bip::interprocess_recursive_mutex`. -/
inductive Obj where
  | vector (v : List employee)
  | map (m : List (string × Int))
  | mutex (m : RMutex)
  deriving DecidableEq, Repr

/-- The type tag of a stored object. -/
def Obj.tag : Obj → Tag
  | .vector _ => .vector
  | .map _ => .map
  | .mutex _ => .mutex

/-- A Region: its fixed size and its Named Object Index. The position of an
entry in the index stands for its offset. -/
structure Region where
  size : Nat
  index : List (String × Obj)
  deriving DecidableEq, Repr

/-- A pointer into a mapped Region: the Region and the offset of the object. -/
structure Ptr where
  region : Nat
  offset : Nat
  deriving DecidableEq, Repr

/-- The state outside the handles: the OS shared-memory namespace (`names`,
each name bound to a Region id), the contents of every Region that was ever
mapped (`mem`) and the next unused Region id. Removing a name leaves the
Region mapped for the processes that hold it. -/
structure World where
  names : List (String × Nat)
  mem : Nat → Region
  next : Nat

/-- The world before any Region was created. -/
def World.empty : World := ⟨[], fun _ => ⟨0, []⟩, 0⟩

/-- The Region id bound to a name in the OS namespace, if any. -/
def World.resolve (w : World) (name : String) : Option Nat :=
  (w.names.find? (fun e => e.1 = name)).map Prod.snd

/-! ## The external primitives: the OS facility and the Named Object Index -/

/-- Modelled from the spec: `bip::shared_memory_object::remove`, the
remove-by-name capability of the OS shared-memory facility (section 6). The
name leaves the namespace; Regions bound to other names are untouched. -/
def shared_memory_object_remove (name : String) (w : World) : World :=
  { w with names := w.names.filter (fun e => e.1 ≠ name) }

/-- Modelled from the spec: `bip::managed_shared_memory(bip::create_only, name,
size)`, the `create(name, bytes)` of 4.C: fails with AlreadyExists if a Region
by that name exists, otherwise installs a Region with an empty index. -/
def managed_create_only (name : String) (size : Nat) (w : World) :
    Except Error (Nat × World) :=
  match w.resolve name with
  | some _ => .error .AlreadyExists
  | none =>
    .ok (w.next,
      { names := w.names ++ [(name, w.next)],
        mem := Function.update w.mem w.next ⟨size, []⟩,
        next := w.next + 1 })

/-- Modelled from the spec: `bip::managed_shared_memory(bip::open_only, name)`,
the `attach(name)` of 4.C: fails with NotFound if the Region is missing. -/
def managed_open_only (name : String) (w : World) : Except Error Nat :=
  match w.resolve name with
  | some rid => .ok rid
  | none => .error .NotFound

/-- The search of an index for `name`, from offset `i` on: the offset and the
object of the first entry of that name. -/
def lookupFrom (name : String) : List (String × Obj) → Nat → Option (Nat × Obj)
  | [], _ => none
  | e :: es, i => if e.1 = name then some (i, e.2) else lookupFrom name es (i + 1)

/-- The offset and the object of the entry called `name` in the index of a
Region, if any. -/
def Region.lookup (r : Region) (name : String) : Option (Nat × Obj) :=
  lookupFrom name r.index 0

/-- Modelled from the spec: `segment.construct<T>(name)(args)` (4.B): fails
with NameExists if `name` is already indexed, otherwise records the entry and
returns its address. -/
def construct (seg : Nat) (name : String) (o : Obj) (w : World) :
    Except Error (Ptr × World) :=
  let r := w.mem seg
  match r.lookup name with
  | some _ => .error .NameExists
  | none =>
    let r1 : Region := ⟨r.size, r.index ++ [(name, o)]⟩
    .ok (⟨seg, r.index.length⟩, { w with mem := Function.update w.mem seg r1 })

/-- Modelled from the spec: `segment.find<T>(name).first` (4.B): the address of
the entry or none (a null pointer); fails with TypeMismatch if the stored
type tag disagrees with `T`. -/
def find (seg : Nat) (t : Tag) (name : String) (w : World) :
    Except Error (Option Ptr) :=
  match (w.mem seg).lookup name with
  | none => .ok none
  | some (i, o) => if o.tag = t then .ok (some ⟨seg, i⟩) else .error .TypeMismatch

/-- The object a pointer refers to. -/
def World.deref (w : World) (p : Ptr) : Option Obj :=
  ((w.mem p.region).index[p.offset]?).map Prod.snd

/-- A store through a pointer: the object at `p` is replaced by `o`. -/
def World.store (w : World) (p : Ptr) (o : Obj) : World :=
  let r := w.mem p.region
  let r1 : Region := ⟨r.size, r.index.modify (fun e => (e.1, o)) p.offset⟩
  { w with mem := Function.update w.mem p.region r1 }

/-! ## The wrappers of `ipc.h` -/

/-- The fields of `SharedBase<T>`; `_object` is `none` for a null pointer. -/
structure SharedBase (P : Type) where
  _owner : Bool
  _name : String
  _object : Option P
  deriving DecidableEq, Repr

/-- The constructor `SharedBase::SharedBase(name, owner)`: an owner removes the
OS shared-memory object of that name. -/
def SharedBase.ctor {P : Type} (name : String) (owner : Bool) (w : World) :
    SharedBase P × World :=
  (⟨owner, name, none⟩, if owner then shared_memory_object_remove name w else w)

/-- The destructor `SharedBase::~SharedBase()`: an owner removes the OS
shared-memory object of its name. The line it logs is left out. -/
def SharedBase.dtor {P : Type} (b : SharedBase P) (w : World) : World :=
  if b._owner then shared_memory_object_remove b._name w else w

/-- The operator `SharedBase::operator->()`: the pointer `_object`. -/
def SharedBase.arrow {P : Type} (b : SharedBase P) : Option P := b._object

/-- The method `SharedBase::reference()`, for a wrapper of an in-Region object:
the object `_object` points at; undefined (none) for a null pointer. -/
def SharedBase.reference (b : SharedBase Ptr) (w : World) : Option Obj :=
  b._object.bind w.deref

/-- A `SharedMemory`: the base fields and the member `_segment`, the mapping of
a Region. The base pointer `_object`, when set, is the address of `_segment`. -/
structure SharedMemory where
  base : SharedBase Nat
  _segment : Nat
  deriving DecidableEq, Repr

/-- The constructor `SharedMemory::SharedMemory(name, size)`. When the member
initialiser throws, the base that was already built is destroyed again. -/
def SharedMemory.create (name : String) (size : Nat) (w : World) :
    Except Error SharedMemory × World :=
  let (b, w1) := (SharedBase.ctor name true w : SharedBase Nat × World)
  match managed_create_only name size w1 with
  | .error e => (.error e, b.dtor w1)
  | .ok (seg, w2) => (.ok ⟨{ b with _object := some seg }, seg⟩, w2)

/-- The constructor `SharedMemory::SharedMemory(name)`. The body is empty:
`_object` keeps its default, the null pointer. -/
def SharedMemory.attach (name : String) (w : World) :
    Except Error SharedMemory × World :=
  let (b, w1) := (SharedBase.ctor name false w : SharedBase Nat × World)
  match managed_open_only name w1 with
  | .error e => (.error e, b.dtor w1)
  | .ok seg => (.ok ⟨b, seg⟩, w1)

/-- The destructor of `SharedMemory`: `_segment` is unmapped, then the base is
destroyed. -/
def SharedMemory.dtor (s : SharedMemory) (w : World) : World := s.base.dtor w

/-- The method `reference()` of a `SharedMemory`: the segment behind `_object`. -/
def SharedMemory.reference (s : SharedMemory) : Option Nat := s.base._object

/-- The constructor `SharedMutex::SharedMutex(name, segment, owner)`. -/
def SharedMutex.ctor (name : String) (segment : Nat) (owner : Bool) (w : World) :
    Except Error (SharedBase Ptr) × World :=
  let (b, w1) := (SharedBase.ctor name owner w : SharedBase Ptr × World)
  if owner then
    match construct segment name (.mutex ⟨none, 0⟩) w1 with
    | .error e => (.error e, b.dtor w1)
    | .ok (p, w2) => (.ok { b with _object := some p }, w2)
  else
    match find segment .mutex name w1 with
    | .error e => (.error e, b.dtor w1)
    | .ok p => (.ok { b with _object := p }, w1)

/-- The constructor `SharedVector::SharedVector(reserve, name, segment)`. The call of
`reserve` changes the capacity only, which nothing here observes. -/
def SharedVector.create (_reserve : Nat) (name : String) (segment : Nat) (w : World) :
    Except Error (SharedBase Ptr) × World :=
  let (b, w1) := (SharedBase.ctor name true w : SharedBase Ptr × World)
  match construct segment name (.vector []) w1 with
  | .error e => (.error e, b.dtor w1)
  | .ok (p, w2) => (.ok { b with _object := some p }, w2)

/-- The constructor `SharedVector::SharedVector(name, segment)`. -/
def SharedVector.attach (name : String) (segment : Nat) (w : World) :
    Except Error (SharedBase Ptr) × World :=
  let (b, w1) := (SharedBase.ctor name false w : SharedBase Ptr × World)
  match find segment .vector name w1 with
  | .error e => (.error e, b.dtor w1)
  | .ok p => (.ok { b with _object := p }, w1)

/-- The constructor `SharedMap::SharedMap(name, segment, owner)`. -/
def SharedMap.ctor (name : String) (segment : Nat) (owner : Bool) (w : World) :
    Except Error (SharedBase Ptr) × World :=
  let (b, w1) := (SharedBase.ctor name owner w : SharedBase Ptr × World)
  if owner then
    match construct segment name (.map []) w1 with
    | .error e => (.error e, b.dtor w1)
    | .ok (p, w2) => (.ok { b with _object := some p }, w2)
  else
    match find segment .map name w1 with
    | .error e => (.error e, b.dtor w1)
    | .ok p => (.ok { b with _object := p }, w1)

/-! ## Access through the handles -/

/-- The named entries of a Region without their contents: name and type tag,
in index order. Operations on the stored objects leave it unchanged and
`construct` extends it at the end. -/
def Region.shape (r : Region) : List (String × Tag) :=
  r.index.map (fun e => (e.1, e.2.tag))

/-- The sequence behind a `SharedVector` handle (`h.reference()`): undefined
for a null pointer. -/
def SharedVector.read (h : SharedBase Ptr) (w : World) : Option (List employee) :=
  match h.reference w with
  | some (.vector v) => some v
  | _ => none

/-- The call `h->push_back(e)` on a `SharedVector` handle, all allocations
succeeding. -/
def SharedVector.push_back (h : SharedBase Ptr) (e : employee) (w : World) : Option World :=
  match h.arrow with
  | none => none
  | some p =>
    match w.deref p with
    | some (.vector v) => some (w.store p (.vector (v ++ [e])))
    | _ => none

/-- The mutex behind a `SharedMutex` handle (`h.reference()`). -/
def SharedMutex.read (h : SharedBase Ptr) (w : World) : Option RMutex :=
  match h.reference w with
  | some (.mutex m) => some m
  | _ => none

/-- The map behind a `SharedMap` handle (`h.reference()`). -/
def SharedMap.read (h : SharedBase Ptr) (w : World) : Option (List (string × Int)) :=
  match h.reference w with
  | some (.map m) => some m
  | _ => none

/-! ## The external primitives: containers and mutex -/

/-- Modelled from the spec: the ordering of the inline string (4.F),
lexicographic on bytes; a proper prefix comes first. -/
def string.lt : string → string → Bool
  | [], [] => false
  | [], _ :: _ => true
  | _ :: _, [] => false
  | a :: as, b :: bs => if a < b then true else if b < a then false else string.lt as bs

/-- Modelled from the spec: `insert` of the ordered map (4.F), insert-if-absent
under the ordering of the keys. The map is the list of its entries in
iteration order, from `begin()` to `end()`. -/
def map.insert (k : string) (v : Int) : List (string × Int) → List (string × Int)
  | [] => [(k, v)]
  | e :: es =>
    if string.lt k e.1 then (k, v) :: e :: es
    else if string.lt e.1 k then e :: map.insert k v es
    else e :: es

/-- A sequence of `insert` calls on a map, in order. -/
def map.insertAll (ops : List (string × Int)) (m : List (string × Int)) :
    List (string × Int) :=
  ops.foldl (fun m kv => map.insert kv.1 kv.2 m) m

/-- Why a step of a process cannot be completed: it blocks on the mutex, or
it has no defined behaviour. -/
inductive Stuck where
  | blocked
  | undefined
  deriving DecidableEq, Repr

/-- Modelled from the spec: `lock()` of the recursive mutex (4.E) by the thread
`pid`. A free mutex is taken, the owner locks again by raising the count, any
other thread blocks. -/
def RMutex.lock (pid : Nat) (m : RMutex) : Except Stuck RMutex :=
  if m.count = 0 then .ok ⟨some pid, 1⟩
  else if m.owner = some pid then .ok ⟨some pid, m.count + 1⟩
  else .error .blocked

/-- Modelled from the spec: `unlock()` of the recursive mutex (4.E) by the
thread `pid`, defined for the owner only; the last unlock frees the mutex. -/
def RMutex.unlock (pid : Nat) (m : RMutex) : Except Stuck RMutex :=
  if m.owner = some pid ∧ 0 < m.count then
    .ok ⟨if m.count = 1 then none else some pid, m.count - 1⟩
  else .error .undefined

/-- The bytes `c_str()` hands to `std::string`: those before the first NUL. -/
def c_str (s : string) : string := s.takeWhile (fun b => b ≠ 0)

/-! ## Calls through the handles -/

/-- The call `h->insert(std::pair(k, v))` on a `SharedMap` handle, all
allocations succeeding. -/
def SharedMap.insert (h : SharedBase Ptr) (k : string) (v : Int) (w : World) :
    Option World :=
  match h.arrow with
  | none => none
  | some p =>
    match w.deref p with
    | some (.map m) => some (w.store p (.map (map.insert k v m)))
    | _ => none

/-- The call `h->lock()` on a `SharedMutex` handle by the thread `pid`. -/
def SharedMutex.lock (h : SharedBase Ptr) (pid : Nat) (w : World) : Except Stuck World :=
  match h.arrow with
  | none => .error .undefined
  | some p =>
    match w.deref p with
    | some (.mutex m) =>
      match m.lock pid with
      | .error e => .error e
      | .ok m1 => .ok (w.store p (.mutex m1))
    | _ => .error .undefined

/-- The entries of a map are in strictly ascending order of their keys. -/
def map.Ordered (m : List (string × Int)) : Prop :=
  m.Pairwise (fun a b => string.lt a.1 b.1 = true)

end ipc

open ipc

/-! ## The struct `SC` of `example.cpp` -/

/-- The struct `SC`: the `SharedMemory` base and the three wrapper members, in
their order of declaration (`_map`, `_vector`, `_mtx`), which is the order of
their construction. -/
structure SC where
  base : ipc.SharedMemory
  _map : ipc.SharedBase ipc.Ptr
  _vector : ipc.SharedBase ipc.Ptr
  _mtx : ipc.SharedBase ipc.Ptr
  deriving DecidableEq, Repr

/-- The constructor `SC::SC(size)`, the server: the segment "EMP_SEGMENT", then
the members in declaration order. A member that throws unwinds what was built
before it. -/
def SC.create (size : Nat) (w : World) : Except Error SC × World :=
  match SharedMemory.create "EMP_SEGMENT" size w with
  | (.error e, w1) => (.error e, w1)
  | (.ok sm, w1) =>
    match SharedMap.ctor "EMP_MAP" sm._segment true w1 with
    | (.error e, w2) => (.error e, sm.dtor w2)
    | (.ok m, w2) =>
      match SharedVector.create 10 "EMP_VECTOR" sm._segment w2 with
      | (.error e, w3) => (.error e, sm.dtor (m.dtor w3))
      | (.ok v, w3) =>
        match SharedMutex.ctor "EMP_MTX" sm._segment true w3 with
        | (.error e, w4) => (.error e, sm.dtor (m.dtor (v.dtor w4)))
        | (.ok x, w4) => (.ok ⟨sm, m, v, x⟩, w4)

/-- The constructor `SC::SC()`, the client: the existing segment and the
existing objects. -/
def SC.attach (w : World) : Except Error SC × World :=
  match SharedMemory.attach "EMP_SEGMENT" w with
  | (.error e, w1) => (.error e, w1)
  | (.ok sm, w1) =>
    match SharedMap.ctor "EMP_MAP" sm._segment false w1 with
    | (.error e, w2) => (.error e, sm.dtor w2)
    | (.ok m, w2) =>
      match SharedVector.attach "EMP_VECTOR" sm._segment w2 with
      | (.error e, w3) => (.error e, sm.dtor (m.dtor w3))
      | (.ok v, w3) =>
        match SharedMutex.ctor "EMP_MTX" sm._segment false w3 with
        | (.error e, w4) => (.error e, sm.dtor (m.dtor (v.dtor w4)))
        | (.ok x, w4) => (.ok ⟨sm, m, v, x⟩, w4)

/-- The destructor of `SC`: the members in reverse order of declaration, then
the `SharedMemory` base. -/
def SC.dtor (sc : SC) (w : World) : World :=
  sc.base.dtor (sc._map.dtor (sc._vector.dtor (sc._mtx.dtor w)))

/-! ## The driver of `example.cpp` -/

/-- The three objects in the Region that the handles `_vector`, `_map` and
`_mtx` of an `SC` refer to. -/
structure Shared where
  _vector : List employee
  _map : List (string × Int)
  _mtx : RMutex
  deriving DecidableEq, Repr

/-- The objects behind the handles of an `SC`: undefined when a handle is
null. -/
def SC.objects (sc : SC) (w : World) : Option Shared :=
  match SharedVector.read sc._vector w, SharedMap.read sc._map w, SharedMutex.read sc._mtx w with
  | some v, some m, some x => some ⟨v, m, x⟩
  | _, _, _ => none

/-- What `SC::show()` writes: the elements of the vector in order, then the
entries of the map from `begin()` to `end()`. -/
structure Shown where
  vector : List (string × Int)
  map : List (string × Int)
  deriving DecidableEq, Repr

/-- The method `SC::show()` run by the thread `pid`: the scoped lock on `_mtx`
is taken, the vector and the map are written out, the lock is released. -/
def SC.show (pid : Nat) (s : Shared) : Except Stuck (Shared × Shown) :=
  match s._mtx.lock pid with
  | .error e => .error e
  | .ok m1 =>
    let out : Shown := ⟨s._vector.map (fun e => (c_str e._name, e._empNum)), s._map⟩
    match m1.unlock pid with
    | .error e => .error e
    | .ok m2 => .ok ({ s with _mtx := m2 }, out)

/-- The names the server loop runs over. -/
def serverNames : List String := ["Putin", "Kim", "Hillary", "Jong", "Obama", "Un", "Comey"]

/-- The server before its loop: `num = 1000`, the element ("Assad", 1000) is
pushed and inserted without the lock, `num` becomes 1001. -/
def serverInit (s : Shared) : Shared × Int :=
  let num : Int := 1000
  let s1 := { s with _vector := s._vector ++ [employee.mk (str "Assad") num] }
  let s2 := { s1 with _map := map.insert (str "Assad") num s1._map }
  (s2, num + 1)

/-- How the allocations in the Region go during one iteration of a loop. The
allocator is not part of the repository, so the outcome is a parameter: all
allocations succeed, or one fails before the vector is changed (the copy of
`back()`, the `ipc::string` of the new element, `push_back` itself), or one
fails after the append and before the map is changed (the `ipc::string` of the
key, the node of the map). -/
inductive Allocs where
  | succeed
  | failAppend
  | failInsert
  deriving DecidableEq, Repr

/-- The way an iteration leaves the body of its loop: at its end, by `break`,
or by the exception of a failed allocation. Nothing in `example.cpp` catches
that exception: the process ends in `std::terminate` and the destructor of the
scoped lock is not run. -/
inductive LoopExit where
  | next
  | broke
  | terminated
  deriving DecidableEq, Repr

/-- One iteration of the server loop for the name `n`, run by the thread `pid`
with `input` read from the user and the allocations going as `alloc` says.
The result is the state of the objects, the value of `num` and the way the
body was left. The scoped lock is released at the end of the body and on
`break`; a failed allocation ends the process with the lock still held. -/
def serverStep (alloc : Allocs) (pid : Nat) (n : String) (input : Int) (num : Int)
    (s : Shared) : Except Stuck (Shared × Int × LoopExit) :=
  match s._mtx.lock pid with
  | .error e => .error e
  | .ok m1 =>
    match SC.show pid { s with _mtx := m1 } with
    | .error e => .error e
    | .ok (s2, _) =>
      if input = 0 then
        match s2._mtx.unlock pid with
        | .error e => .error e
        | .ok m3 => .ok ({ s2 with _mtx := m3 }, num, .broke)
      else
        match alloc with
        | .failAppend => .ok (s2, num, .terminated)
        | .failInsert =>
          .ok ({ s2 with _vector := s2._vector ++ [employee.mk (str n) num] }, num,
            .terminated)
        | .succeed =>
          let s3 := { s2 with _vector := s2._vector ++ [employee.mk (str n) num] }
          let s4 := { s3 with _map := map.insert (str n) num s3._map }
          match s4._mtx.unlock pid with
          | .error e => .error e
          | .ok m5 => .ok ({ s4 with _mtx := m5 }, num + 1, .next)

/-- The server loop over the names `ns`, all allocations succeeding, with one
user input for each iteration; a missing input reads as 0, as a failed
extraction does. -/
def serverLoop (pid : Nat) : List String → List Int → Int → Shared → Except Stuck (Shared × Int)
  | [], _, num, s => .ok (s, num)
  | n :: ns, inputs, num, s =>
    match serverStep .succeed pid n (inputs.headD 0) num s with
    | .error e => .error e
    | .ok (s1, num1, .next) => serverLoop pid ns inputs.tail num1 s1
    | .ok (s1, num1, _) => .ok (s1, num1)

/-- One iteration of the client loop, run by the thread `pid`, the allocations
going as `alloc` says. `back()` of an empty vector has no defined behaviour.
The scoped lock is released at the end of the body; a failed allocation ends
the process with the lock still held. -/
def clientStep (alloc : Allocs) (pid : Nat) (s : Shared) : Except Stuck (Shared × LoopExit) :=
  match s._mtx.lock pid with
  | .error e => .error e
  | .ok m1 =>
    match SC.show pid { s with _mtx := m1 } with
    | .error e => .error e
    | .ok (s2, _) =>
      match s2._vector.getLast? with
      | none => .error .undefined
      | some e =>
        let n : string := c_str e._name ++ str "-client"
        match alloc with
        | .failAppend => .ok (s2, .terminated)
        | .failInsert =>
          .ok ({ s2 with _vector := s2._vector ++ [employee.mk (c_str n) e._empNum] },
            .terminated)
        | .succeed =>
          let s3 := { s2 with _vector := s2._vector ++ [employee.mk (c_str n) e._empNum] }
          let s4 := { s3 with _map := map.insert (c_str n) e._empNum s3._map }
          match s4._mtx.unlock pid with
          | .error e => .error e
          | .ok m5 => .ok ({ s4 with _mtx := m5 }, .next)

/-! ## Interleavings of the two loops -/

/-- The state of the running driver: the shared objects, the names the server
loop has still to visit (empty once the loop is over, also after `break`) and
the server's counter `num`. -/
structure Sys where
  shared : Shared
  pending : List String
  num : Int
  deriving DecidableEq, Repr

/-- A whole loop step of one process: the server with the input it reads, or
a client. Each carries the identity of its thread. -/
inductive Turn where
  | server (pid : Nat) (input : Int)
  | client (pid : Nat)
  deriving DecidableEq, Repr

/-- The state after the server's initial insertion of ("Assad", 1000), with
the whole loop ahead. -/
def Sys.init : Sys :=
  ⟨(serverInit ⟨[], [], ⟨none, 0⟩⟩).1, serverNames, (serverInit ⟨[], [], ⟨none, 0⟩⟩).2⟩

/-- One whole loop step, all allocations succeeding. A server whose loop is
over does nothing more to the shared objects. -/
def Sys.step (a : Turn) (σ : Sys) : Except Stuck Sys :=
  match a with
  | .server pid input =>
    match σ.pending with
    | [] => .ok σ
    | n :: rest =>
      match serverStep .succeed pid n input σ.num σ.shared with
      | .error e => .error e
      | .ok (s1, num1, exit) => .ok ⟨s1, if exit = .next then rest else [], num1⟩
  | .client pid =>
    match clientStep .succeed pid σ.shared with
    | .error e => .error e
    | .ok (s1, _) => .ok ⟨s1, σ.pending, σ.num⟩

/-- An interleaving of whole loop steps, all allocations succeeding, run from
a state. -/
def Sys.run : List Turn → Sys → Except Stuck Sys
  | [], σ => .ok σ
  | a :: as, σ =>
    match Sys.step a σ with
    | .error e => .error e
    | .ok σ1 => Sys.run as σ1

/-! ## The worlds of the scenarios -/

/-- The world after `SharedMemory("EMP", 65536)` was built in an empty OS
shared-memory namespace: the Region "EMP" exists and its index is empty. -/
def worldEMP : World := (SharedMemory.create "EMP" 65536 World.empty).2

/-- The world after the server has built its `SC` in an empty namespace. -/
def serverWorld : World := (SC.create 65536 World.empty).2

/-! ## Definitions for the invariant of the driver -/

/-- The part of a name before its first '-' (byte 45). -/
def nameBase (s : string) : string := s.takeWhile (fun b => b ≠ 45)

/-- The names the server stores, in the order in which it stores them. -/
def storedNames : List string := ("Assad" :: serverNames).map str

/-- The position among the server's names of the base of a name. -/
def nameRank (s : string) : Nat := storedNames.indexOf (nameBase s)

/-- The order in which the driver produces names: by the position of the
base, then by length. -/
def nameLt (a b : string) : Prop :=
  nameRank a < nameRank b ∨ (nameRank a = nameRank b ∧ a.length < b.length)

/-- The invariant of the running driver. -/
structure Sys.Inv (σ : Sys) : Prop where
  mtx : σ.shared._mtx = ⟨none, 0⟩
  nonempty : σ.shared._vector ≠ []
  nul : ∀ e ∈ σ.shared._vector, ∀ b ∈ e._name, b ≠ 0
  prog : ∃ k, k ≤ 7 ∧ (σ.pending = serverNames.drop k ∨ σ.pending = []) ∧
    ∀ e ∈ σ.shared._vector, nameRank e._name ≤ k
  incr : σ.shared._vector.Pairwise (fun a b => nameLt a._name b._name)
  corr : ∀ k v, (k, v) ∈ σ.shared._map ↔
    ∃ e ∈ σ.shared._vector, e._name = k ∧ e._empNum = v
  len : σ.shared._map.length = σ.shared._vector.length

/-! # Theorems -/

namespace ipc

/-! ## Facts about the namespace -/

theorem resolve_remove_self (n : String) (w : World) :
    (shared_memory_object_remove n w).resolve n = none := by
  simp [World.resolve, shared_memory_object_remove, List.find?_eq_none]

theorem resolve_remove_ne {n m : String} (h : m ≠ n) (w : World) :
    (shared_memory_object_remove n w).resolve m = w.resolve m := by
  unfold World.resolve shared_memory_object_remove
  congr 1
  simp only [List.find?_filter]
  congr 1
  funext e
  by_cases hm : e.1 = m
  · have he : ¬ e.1 = n := fun h1 => h (hm ▸ h1)
    simp [hm, he, h]
  · simp [hm]

theorem resolve_append_self (n : String) (rid : Nat) (l : List (String × Nat))
    (w : World) (h : (World.resolve ⟨l, w.mem, w.next⟩ n) = none) :
    World.resolve ⟨l ++ [(n, rid)], w.mem, w.next⟩ n = some rid := by
  simp only [World.resolve, Option.map_eq_none', List.find?_eq_none] at h
  simp only [World.resolve, List.find?_append]
  have : List.find? (fun e => decide (e.1 = n)) l = none := List.find?_eq_none.2 h
  simp [this]

/-! ## Facts about the Named Object Index -/

theorem lookupFrom_eq_none {n : String} {l : List (String × Obj)} {k : Nat} :
    lookupFrom n l k = none ↔ ∀ e ∈ l, e.1 ≠ n := by
  induction l generalizing k with
  | nil => simp [lookupFrom]
  | cons e es ih =>
    by_cases he : e.1 = n
    · simp [lookupFrom, he]
    · simp [lookupFrom, he, ih]

theorem lookupFrom_some {n : String} {l : List (String × Obj)} {k i : Nat} {o : Obj}
    (h : lookupFrom n l k = some (i, o)) : k ≤ i ∧ l[i - k]? = some (n, o) := by
  induction l generalizing k with
  | nil => simp [lookupFrom] at h
  | cons e es ih =>
    by_cases he : e.1 = n
    · simp only [lookupFrom, he, if_true, Option.some.injEq, Prod.mk.injEq] at h
      obtain ⟨rfl, rfl⟩ := h
      refine ⟨le_refl _, ?_⟩
      simp [← he]
    · simp only [lookupFrom, he, if_false] at h
      obtain ⟨h1, h2⟩ := ih h
      refine ⟨by omega, ?_⟩
      have : i - k = (i - (k + 1)) + 1 := by omega
      rw [this, List.getElem?_cons_succ]
      exact h2

theorem lookupFrom_append_new {n : String} {l : List (String × Obj)} {k : Nat} (o : Obj)
    (h : lookupFrom n l k = none) :
    lookupFrom n (l ++ [(n, o)]) k = some (k + l.length, o) := by
  induction l generalizing k with
  | nil => simp [lookupFrom]
  | cons e es ih =>
    by_cases he : e.1 = n
    · simp [lookupFrom, he] at h
    · simp only [lookupFrom, he, if_false] at h
      have h1 := ih h
      have : k + 1 + es.length = k + (es.length + 1) := by omega
      rw [this] at h1
      simpa only [List.cons_append, lookupFrom, he, if_false, List.length_cons] using h1

theorem lookupFrom_shape {n : String} {l1 l2 : List (String × Obj)} {k i : Nat} {o1 : Obj}
    (hs : l1.map (fun e => (e.1, e.2.tag)) <+: l2.map (fun e => (e.1, e.2.tag)))
    (h : lookupFrom n l1 k = some (i, o1)) :
    ∃ o2, lookupFrom n l2 k = some (i, o2) ∧ o2.tag = o1.tag := by
  induction l1 generalizing l2 k with
  | nil => simp [lookupFrom] at h
  | cons e es ih =>
    cases l2 with
    | nil => simp at hs
    | cons e2 es2 =>
      simp only [List.map_cons, List.cons_prefix_cons, Prod.mk.injEq] at hs
      obtain ⟨⟨hn, ht⟩, hs⟩ := hs
      by_cases he : e.1 = n
      · have he2 : e2.1 = n := hn ▸ he
        simp only [lookupFrom, he, if_true, Option.some.injEq, Prod.mk.injEq] at h
        obtain ⟨rfl, rfl⟩ := h
        exact ⟨e2.2, by simp [lookupFrom, he2], ht.symm⟩
      · have he2 : ¬ e2.1 = n := hn ▸ he
        simp only [lookupFrom, he, if_false] at h
        simp only [lookupFrom, he2, if_false]
        exact ih hs h

theorem deref_store {w : World} {p : Ptr} {o0 : Obj} (o : Obj)
    (h : w.deref p = some o0) : (w.store p o).deref p = some o := by
  simp only [World.deref, Option.map_eq_some'] at h
  obtain ⟨e, he, _⟩ := h
  simp [World.deref, World.store, List.getElem?_modify, he]

theorem shape_store (w : World) (p : Ptr) (o0 o : Obj)
    (h : w.deref p = some o0) (ht : o.tag = o0.tag) (seg : Nat) :
    ((w.store p o).mem seg).shape = (w.mem seg).shape := by
  simp only [World.deref, Option.map_eq_some'] at h
  obtain ⟨e, he, rfl⟩ := h
  by_cases hseg : seg = p.region
  · subst hseg
    simp only [World.store, Function.update_same, Region.shape]
    apply List.ext_getElem?
    intro j
    simp only [List.getElem?_map, List.getElem?_modify]
    by_cases hj : p.offset = j
    · subst hj
      simp [he, ht]
    · cases (w.mem p.region).index[j]? <;> simp [hj]
  · simp [World.store, Function.update_noteq hseg]

/-- The common body of the creator-form wrapper constructors: the base is built
as an owner, then the object is constructed under `name`. -/
theorem creator_form_eq (name : String) (seg : Nat) (o : Obj) (w : World) :
    (match construct seg name o (shared_memory_object_remove name w) with
      | .error e =>
        ((.error e : Except Error (SharedBase Ptr)),
          (⟨true, name, none⟩ : SharedBase Ptr).dtor (shared_memory_object_remove name w))
      | .ok (p, w2) => (.ok ⟨true, name, some p⟩, w2))
    = match (w.mem seg).lookup name with
      | some _ =>
        (.error .NameExists,
          shared_memory_object_remove name (shared_memory_object_remove name w))
      | none =>
        (.ok ⟨true, name, some ⟨seg, (w.mem seg).index.length⟩⟩,
          ⟨w.names.filter (fun e => e.1 ≠ name),
           Function.update w.mem seg
             ⟨(w.mem seg).size, (w.mem seg).index ++ [(name, o)]⟩, w.next⟩) := by
  simp only [construct, shared_memory_object_remove]
  cases (w.mem seg).lookup name <;> rfl

/-- The common body of the attacher-form wrapper constructors. -/
theorem attacher_form_eq (name : String) (seg : Nat) (t : Tag) (w : World) :
    (match find seg t name w with
      | .error e =>
        ((.error e : Except Error (SharedBase Ptr)),
          (⟨false, name, none⟩ : SharedBase Ptr).dtor w)
      | .ok p => (.ok ⟨false, name, p⟩, w))
    = match (w.mem seg).lookup name with
      | none => (.ok ⟨false, name, none⟩, w)
      | some (i, o) =>
        if o.tag = t then (.ok ⟨false, name, some ⟨seg, i⟩⟩, w)
        else (.error .TypeMismatch, w) := by
  simp only [find]
  cases (w.mem seg).lookup name with
  | none => rfl
  | some x =>
    obtain ⟨i, o⟩ := x
    by_cases ht : o.tag = t <;> simp [ht, SharedBase.dtor]

theorem SharedVector_create_eq (r : Nat) (name : String) (seg : Nat) (w : World) :
    SharedVector.create r name seg w
    = match (w.mem seg).lookup name with
      | some _ =>
        (.error .NameExists,
          shared_memory_object_remove name (shared_memory_object_remove name w))
      | none =>
        (.ok ⟨true, name, some ⟨seg, (w.mem seg).index.length⟩⟩,
          ⟨w.names.filter (fun e => e.1 ≠ name),
           Function.update w.mem seg
             ⟨(w.mem seg).size, (w.mem seg).index ++ [(name, .vector [])]⟩, w.next⟩) :=
  creator_form_eq name seg (.vector []) w

theorem SharedMap_create_eq (name : String) (seg : Nat) (w : World) :
    SharedMap.ctor name seg true w
    = match (w.mem seg).lookup name with
      | some _ =>
        (.error .NameExists,
          shared_memory_object_remove name (shared_memory_object_remove name w))
      | none =>
        (.ok ⟨true, name, some ⟨seg, (w.mem seg).index.length⟩⟩,
          ⟨w.names.filter (fun e => e.1 ≠ name),
           Function.update w.mem seg
             ⟨(w.mem seg).size, (w.mem seg).index ++ [(name, .map [])]⟩, w.next⟩) :=
  creator_form_eq name seg (.map []) w

theorem SharedMutex_create_eq (name : String) (seg : Nat) (w : World) :
    SharedMutex.ctor name seg true w
    = match (w.mem seg).lookup name with
      | some _ =>
        (.error .NameExists,
          shared_memory_object_remove name (shared_memory_object_remove name w))
      | none =>
        (.ok ⟨true, name, some ⟨seg, (w.mem seg).index.length⟩⟩,
          ⟨w.names.filter (fun e => e.1 ≠ name),
           Function.update w.mem seg
             ⟨(w.mem seg).size, (w.mem seg).index ++ [(name, .mutex ⟨none, 0⟩)]⟩, w.next⟩) :=
  creator_form_eq name seg (.mutex ⟨none, 0⟩) w

theorem SharedVector_attach_eq (name : String) (seg : Nat) (w : World) :
    SharedVector.attach name seg w
    = match (w.mem seg).lookup name with
      | none => (.ok ⟨false, name, none⟩, w)
      | some (i, o) =>
        if o.tag = .vector then (.ok ⟨false, name, some ⟨seg, i⟩⟩, w)
        else (.error .TypeMismatch, w) :=
  attacher_form_eq name seg .vector w

theorem SharedMap_attach_eq (name : String) (seg : Nat) (w : World) :
    SharedMap.ctor name seg false w
    = match (w.mem seg).lookup name with
      | none => (.ok ⟨false, name, none⟩, w)
      | some (i, o) =>
        if o.tag = .map then (.ok ⟨false, name, some ⟨seg, i⟩⟩, w)
        else (.error .TypeMismatch, w) :=
  attacher_form_eq name seg .map w

theorem SharedMutex_attach_eq (name : String) (seg : Nat) (w : World) :
    SharedMutex.ctor name seg false w
    = match (w.mem seg).lookup name with
      | none => (.ok ⟨false, name, none⟩, w)
      | some (i, o) =>
        if o.tag = .mutex then (.ok ⟨false, name, some ⟨seg, i⟩⟩, w)
        else (.error .TypeMismatch, w) :=
  attacher_form_eq name seg .mutex w

/-- After `construct` has recorded `name` at the end of the index of `seg`, any
later state of that Region (more entries, other contents) still has an object
of the same type under `name`, at the same offset. -/
theorem lookup_after_construct {name : String} {seg : Nat} {w w2 : World} (o : Obj)
    (hl : (w.mem seg).lookup name = none)
    (hs : (w.mem seg).index.map (fun e => (e.1, e.2.tag)) ++ [(name, o.tag)]
            <+: (w2.mem seg).shape) :
    ∃ o2, (w2.mem seg).lookup name = some ((w.mem seg).index.length, o2) ∧
      o2.tag = o.tag ∧ w2.deref ⟨seg, (w.mem seg).index.length⟩ = some o2 := by
  have h1 := lookupFrom_append_new o hl
  have hs1 : ((w.mem seg).index ++ [(name, o)]).map (fun e => (e.1, e.2.tag))
      <+: (w2.mem seg).index.map (fun e => (e.1, e.2.tag)) := by
    simpa [Region.shape] using hs
  obtain ⟨o2, h2, h3⟩ := lookupFrom_shape hs1 h1
  refine ⟨o2, by simpa [Region.lookup] using h2, h3, ?_⟩
  have h4 := (lookupFrom_some h2).2
  simp only [Nat.zero_add, Nat.sub_zero] at h4
  simp [World.deref, h4]

theorem creator_ok_inv {name : String} {seg : Nat} {w w1 wE wK : World}
    {h hK : SharedBase Ptr}
    (hc : (match (w.mem seg).lookup name with
      | some _ => ((.error .NameExists : Except Error (SharedBase Ptr)), wE)
      | none => (.ok hK, wK)) = (.ok h, w1)) :
    (w.mem seg).lookup name = none ∧ h = hK ∧ w1 = wK := by
  cases hl : (w.mem seg).lookup name with
  | some x =>
    rw [hl] at hc
    injection hc with h1 _
    cases h1
  | none =>
    rw [hl] at hc
    injection hc with h1 h2
    injection h1 with h1
    exact ⟨rfl, h1.symm, h2.symm⟩

/-- The object built by a creator-form wrapper is found again, at the same
address and with the same type, in every later state of the Region. -/
theorem created_object_persists {name : String} {seg : Nat} {w w2 : World} (o : Obj)
    (hl : (w.mem seg).lookup name = none)
    (hs : ((Function.update w.mem seg
            ⟨(w.mem seg).size, (w.mem seg).index ++ [(name, o)]⟩) seg).shape
          <+: (w2.mem seg).shape) :
    ∃ o2, (w2.mem seg).lookup name = some ((w.mem seg).index.length, o2) ∧
      o2.tag = o.tag ∧ w2.deref ⟨seg, (w.mem seg).index.length⟩ = some o2 := by
  apply lookup_after_construct o hl
  simpa [Region.shape] using hs

theorem deref_after_construct (name : String) (seg : Nat) (o : Obj) (w : World)
    (names : List (String × Nat)) (next : Nat) :
    World.deref ⟨names, Function.update w.mem seg
        ⟨(w.mem seg).size, (w.mem seg).index ++ [(name, o)]⟩, next⟩
      ⟨seg, (w.mem seg).index.length⟩ = some o := by
  simp [World.deref]

theorem attacher_ok_of_lookup {name : String} {seg i : Nat} {o : Obj} {t : Tag} {w : World}
    (hl : (w.mem seg).lookup name = some (i, o)) (ht : o.tag = t) :
    (match (w.mem seg).lookup name with
      | none => ((.ok ⟨false, name, none⟩ : Except Error (SharedBase Ptr)), w)
      | some (i, o) =>
        if o.tag = t then (.ok ⟨false, name, some ⟨seg, i⟩⟩, w)
        else (.error .TypeMismatch, w))
      = (.ok ⟨false, name, some ⟨seg, i⟩⟩, w) ∧
    w.deref ⟨seg, i⟩ = some o := by
  rw [hl]
  refine ⟨by simp [ht], ?_⟩
  have h4 := (lookupFrom_some hl).2
  simp only [Nat.sub_zero] at h4
  simp [World.deref, h4]

/-! ## The constructors in closed form -/

theorem SharedMemory_create_eq (n : String) (size : Nat) (w : World) :
    SharedMemory.create n size w
      = (.ok ⟨⟨true, n, some w.next⟩, w.next⟩,
         ⟨w.names.filter (fun e => e.1 ≠ n) ++ [(n, w.next)],
          Function.update w.mem w.next ⟨size, []⟩, w.next + 1⟩) := by
  have h0 := resolve_remove_self n w
  simp only [SharedMemory.create, SharedBase.ctor, managed_create_only, if_true, h0]
  rfl

theorem SharedMemory_attach_eq (n : String) (w : World) :
    SharedMemory.attach n w =
      match w.resolve n with
      | some seg => (.ok ⟨⟨false, n, none⟩, seg⟩, w)
      | none => (.error .NotFound, w) := by
  simp only [SharedMemory.attach, SharedBase.ctor, managed_open_only, Bool.false_eq_true,
    if_false]
  cases w.resolve n <;> rfl

/-! ## The claims about `ipc.h` -/

/-- Claim C1, refuted as stated: with a Region "EMP" present (Region 0, created
by an earlier `SharedMemory("EMP", 65536)` that was not destroyed), building
`SharedMemory("EMP", 4096)` does not fail: it returns a creator handle on a
new Region 1, and the name no longer resolves to the earlier Region. -/
theorem create_twice_succeeds :
    worldEMP.resolve "EMP" = some 0 ∧
    (SharedMemory.create "EMP" 4096 worldEMP).1
      = .ok ⟨⟨true, "EMP", some 1⟩, 1⟩ ∧
    (SharedMemory.create "EMP" 4096 worldEMP).2.resolve "EMP" = some 1 :=
  ⟨rfl, rfl, rfl⟩

/-- Claim C1, amended: `SharedMemory(n, size)` never fails with AlreadyExists.
It first removes the name `n` from the OS namespace, whatever Region it was
bound to, and then creates a fresh Region of the requested size with an empty
index, to which `n` is bound; the handle is a creator handle on that Region
and every other name keeps its binding. -/
theorem SharedMemory_create_replaces (n : String) (size : Nat) (w : World) :
    (SharedMemory.create n size w).1 = .ok ⟨⟨true, n, some w.next⟩, w.next⟩ ∧
    (SharedMemory.create n size w).2.names
      = w.names.filter (fun e => e.1 ≠ n) ++ [(n, w.next)] ∧
    (SharedMemory.create n size w).2.resolve n = some w.next ∧
    (SharedMemory.create n size w).2.mem w.next = ⟨size, []⟩ ∧
    ∀ m, m ≠ n → (SharedMemory.create n size w).2.resolve m = w.resolve m := by
  have h0 := resolve_remove_self n w
  rw [SharedMemory_create_eq]
  refine ⟨rfl, rfl, ?_, by simp, ?_⟩
  · exact resolve_append_self n w.next _ ⟨w.names, Function.update w.mem w.next ⟨size, []⟩, w.next + 1⟩ h0
  · intro m hm
    have h1 := resolve_remove_ne hm w
    simp only [World.resolve, shared_memory_object_remove] at h1 ⊢
    rw [List.find?_append, ← h1]
    have hne : ¬ n = m := fun h => hm h.symm
    cases hf : List.find? (fun e => decide (e.1 = m)) (List.filter (fun e => decide (e.1 ≠ n)) w.names) <;>
      simp [hne]

/-- Claim C2: teardown follows the creator flag. After the creator handle
`SharedMemory(n, size)` is destroyed, in whatever world that happens,
`SharedMemory(n)` fails with NotFound; the handle `SharedMemory(n)` yields is
an attacher, destroying it leaves the world (the OS namespace included)
unchanged, and attaching to `n` again succeeds on the same Region. -/
theorem teardown_follows_creator_flag (n : String) (w : World) :
    (∀ size h w1, SharedMemory.create n size w = (.ok h, w1) →
      h.base._owner = true ∧
      ∀ w2, (SharedMemory.attach n (h.dtor w2)).1 = .error .NotFound) ∧
    (∀ h w1, SharedMemory.attach n w = (.ok h, w1) →
      h.base._owner = false ∧
      (∀ w2, h.dtor w2 = w2) ∧
      SharedMemory.attach n (h.dtor w1) = (.ok h, w1)) := by
  constructor
  · intro size h w1 hc
    rw [SharedMemory_create_eq] at hc
    injection hc with h1 h2
    injection h1 with h1
    subst h1
    refine ⟨rfl, fun w2 => ?_⟩
    rw [SharedMemory_attach_eq]
    have : (SharedMemory.dtor ⟨⟨true, n, some w.next⟩, w.next⟩ w2).resolve n = none :=
      resolve_remove_self n w2
    rw [this]
  · intro h w1 ha
    rw [SharedMemory_attach_eq] at ha
    cases hr : w.resolve n with
    | none => rw [hr] at ha; injection ha with h1 _; cases h1
    | some seg =>
      rw [hr] at ha
      injection ha with h1 h2
      injection h1 with h1
      subst h1 h2
      refine ⟨rfl, fun w2 => rfl, ?_⟩
      show SharedMemory.attach n w = _
      rw [SharedMemory_attach_eq, hr]

/-- Claim C2 at the name "EMP": the creator handle of `worldEMP` destroyed,
attaching fails with NotFound; an attacher handle destroyed, attaching still
succeeds. -/
theorem teardown_follows_creator_flag_witness :
    (SharedMemory.attach "EMP"
        (SharedMemory.dtor ⟨⟨true, "EMP", some 0⟩, 0⟩ worldEMP)).1 = .error .NotFound ∧
    SharedMemory.attach "EMP"
        (SharedMemory.dtor ⟨⟨false, "EMP", none⟩, 0⟩ worldEMP)
      = (.ok ⟨⟨false, "EMP", none⟩, 0⟩, worldEMP) :=
  ⟨((teardown_follows_creator_flag "EMP" World.empty).1 65536
      ⟨⟨true, "EMP", some 0⟩, 0⟩ worldEMP rfl).2 worldEMP,
   ((teardown_follows_creator_flag "EMP" worldEMP).2
      ⟨⟨false, "EMP", none⟩, 0⟩ worldEMP rfl).2.2⟩

/-- Claim C3, the code at a failing input. In `worldEMP` the Region "EMP" is
in the OS namespace. Building a creator-form `SharedVector`, `SharedMap` or
`SharedMutex` named "EMP" inside that Region removes the Region from the OS
shared-memory namespace, so that attaching to it fails with NotFound; and
destroying a creator-form wrapper named "EMP" does the same. -/
theorem creator_wrapper_unlinks_region :
    worldEMP.resolve "EMP" = some 0 ∧
    (SharedVector.create 10 "EMP" 0 worldEMP).2.names = [] ∧
    (SharedMap.ctor "EMP" 0 true worldEMP).2.names = [] ∧
    (SharedMutex.ctor "EMP" 0 true worldEMP).2.names = [] ∧
    (SharedMemory.attach "EMP" (SharedVector.create 10 "EMP" 0 worldEMP).2).1
      = .error .NotFound ∧
    (SharedBase.dtor (⟨true, "EMP", some ⟨0, 0⟩⟩ : SharedBase Ptr) worldEMP).names = [] :=
  ⟨rfl, rfl, rfl, rfl, rfl, rfl⟩

/-- Claim C4, refuted as stated: the Region of `worldEMP` has an empty index,
and the attacher forms on it do not fail with NameMissing: each constructor
returns a handle. -/
theorem attach_missing_name_returns_handle :
    (worldEMP.mem 0).index = [] ∧
    (SharedVector.attach "EMP_VECTOR" 0 worldEMP).1 = .ok ⟨false, "EMP_VECTOR", none⟩ ∧
    (SharedMap.ctor "EMP_MAP" 0 false worldEMP).1 = .ok ⟨false, "EMP_MAP", none⟩ ∧
    (SharedMutex.ctor "EMP_MTX" 0 false worldEMP).1 = .ok ⟨false, "EMP_MTX", none⟩ :=
  ⟨rfl, rfl, rfl, rfl⟩

/-- Claim C4, amended: when `n` has no named entry in the segment, the attacher
forms `SharedVector(n, segment)`, `SharedMap(n, segment, false)` and
`SharedMutex(n, segment, false)` raise no error: each completes, leaves the
world unchanged and yields a handle whose internal pointer is null, so that
`operator->` returns null and `reference()` is undefined. -/
theorem attacher_missing_name_null (n : String) (seg : Nat) (w : World)
    (h : ∀ e ∈ (w.mem seg).index, e.1 ≠ n) :
    SharedVector.attach n seg w = (.ok ⟨false, n, none⟩, w) ∧
    SharedMap.ctor n seg false w = (.ok ⟨false, n, none⟩, w) ∧
    SharedMutex.ctor n seg false w = (.ok ⟨false, n, none⟩, w) ∧
    (⟨false, n, none⟩ : SharedBase Ptr).arrow = none ∧
    (⟨false, n, none⟩ : SharedBase Ptr).reference w = none := by
  have hl : (w.mem seg).lookup n = none := lookupFrom_eq_none.2 h
  rw [SharedVector_attach_eq, SharedMap_attach_eq, SharedMutex_attach_eq, hl]
  exact ⟨rfl, rfl, rfl, rfl, rfl⟩

/-- Claim C4, amended, on the empty Region of `worldEMP`. -/
theorem attacher_missing_name_null_witness :
    SharedVector.attach "EMP_VECTOR" 0 worldEMP = (.ok ⟨false, "EMP_VECTOR", none⟩, worldEMP) :=
  (attacher_missing_name_null "EMP_VECTOR" 0 worldEMP
    (fun e he => by
      have h0 : (worldEMP.mem 0).index = [] := rfl
      rw [h0] at he
      cases he)).1

/-- Claim C5: create-then-attach round trip. After a creator-form wrapper has
constructed the object named `n` in the segment, in every later state `w2` of
that Region (its named entries extended, their contents changed) the
attacher-form wrapper of the same type and name succeeds and holds the same
pointer as the creator, the object is there to read, both handles read the
same contents, and contents written through either handle are read back
through the other. -/
theorem create_then_attach_same_object (n : String) (seg : Nat) (w : World) :
    (∀ r h w1, SharedVector.create r n seg w = (.ok h, w1) →
      ∀ w2, (w1.mem seg).shape <+: (w2.mem seg).shape →
        ∃ h', SharedVector.attach n seg w2 = (.ok h', w2) ∧
          h'.arrow = h.arrow ∧ h.arrow ≠ none ∧
          (∃ v, SharedVector.read h w2 = some v) ∧
          SharedVector.read h' w2 = SharedVector.read h w2 ∧
          ∀ v e, SharedVector.read h w2 = some v →
            (∃ w3, SharedVector.push_back h e w2 = some w3 ∧
              SharedVector.read h' w3 = some (v ++ [e])) ∧
            (∃ w3, SharedVector.push_back h' e w2 = some w3 ∧
              SharedVector.read h w3 = some (v ++ [e]))) ∧
    (∀ h w1, SharedMap.ctor n seg true w = (.ok h, w1) →
      ∀ w2, (w1.mem seg).shape <+: (w2.mem seg).shape →
        ∃ h', SharedMap.ctor n seg false w2 = (.ok h', w2) ∧
          h'.arrow = h.arrow ∧ h.arrow ≠ none ∧
          (∃ m, SharedMap.read h w2 = some m) ∧
          SharedMap.read h' w2 = SharedMap.read h w2 ∧
          ∀ m k v, SharedMap.read h w2 = some m →
            (∃ w3, SharedMap.insert h k v w2 = some w3 ∧
              SharedMap.read h' w3 = some (map.insert k v m)) ∧
            (∃ w3, SharedMap.insert h' k v w2 = some w3 ∧
              SharedMap.read h w3 = some (map.insert k v m))) ∧
    (∀ h w1, SharedMutex.ctor n seg true w = (.ok h, w1) →
      ∀ w2, (w1.mem seg).shape <+: (w2.mem seg).shape →
        ∃ h', SharedMutex.ctor n seg false w2 = (.ok h', w2) ∧
          h'.arrow = h.arrow ∧ h.arrow ≠ none ∧
          (∃ m, SharedMutex.read h w2 = some m) ∧
          SharedMutex.read h' w2 = SharedMutex.read h w2 ∧
          ∀ m pid m1, SharedMutex.read h w2 = some m → m.lock pid = .ok m1 →
            (∃ w3, SharedMutex.lock h pid w2 = .ok w3 ∧
              SharedMutex.read h' w3 = some m1) ∧
            (∃ w3, SharedMutex.lock h' pid w2 = .ok w3 ∧
              SharedMutex.read h w3 = some m1)) := by
  refine ⟨?_, ?_, ?_⟩
  · intro r h w1 hc w2 hs
    rw [SharedVector_create_eq] at hc
    obtain ⟨hl, rfl, rfl⟩ := creator_ok_inv hc
    obtain ⟨o2, h1, h2, h3⟩ := created_object_persists (.vector []) hl hs
    cases o2 with
    | vector v0 =>
      refine ⟨⟨false, n, some ⟨seg, (w.mem seg).index.length⟩⟩, ?_, rfl, by simp [SharedBase.arrow],
        ⟨v0, by simp [SharedVector.read, SharedBase.reference, h3]⟩, rfl, ?_⟩
      · rw [SharedVector_attach_eq, h1]; simp [Obj.tag]
      · intro v e hv
        have hv0 : v0 = v := by
          simpa [SharedVector.read, SharedBase.reference, h3] using hv
        subst hv0
        have hd := deref_store (.vector (v0 ++ [e])) h3
        constructor <;>
          exact ⟨w2.store ⟨seg, (w.mem seg).index.length⟩ (.vector (v0 ++ [e])),
            by simp [SharedVector.push_back, SharedBase.arrow, h3],
            by simp [SharedVector.read, SharedBase.reference, hd]⟩
    | map _ => simp [Obj.tag] at h2
    | mutex _ => simp [Obj.tag] at h2
  · intro h w1 hc w2 hs
    rw [SharedMap_create_eq] at hc
    obtain ⟨hl, rfl, rfl⟩ := creator_ok_inv hc
    obtain ⟨o2, h1, h2, h3⟩ := created_object_persists (.map []) hl hs
    cases o2 with
    | map m0 =>
      refine ⟨⟨false, n, some ⟨seg, (w.mem seg).index.length⟩⟩, ?_, rfl, by simp [SharedBase.arrow],
        ⟨m0, by simp [SharedMap.read, SharedBase.reference, h3]⟩, rfl, ?_⟩
      · rw [SharedMap_attach_eq, h1]; simp [Obj.tag]
      · intro m k v hm
        have hm0 : m0 = m := by
          simpa [SharedMap.read, SharedBase.reference, h3] using hm
        subst hm0
        have hd := deref_store (.map (map.insert k v m0)) h3
        constructor <;>
          exact ⟨w2.store ⟨seg, (w.mem seg).index.length⟩ (.map (map.insert k v m0)),
            by simp [SharedMap.insert, SharedBase.arrow, h3],
            by simp [SharedMap.read, SharedBase.reference, hd]⟩
    | vector _ => simp [Obj.tag] at h2
    | mutex _ => simp [Obj.tag] at h2
  · intro h w1 hc w2 hs
    rw [SharedMutex_create_eq] at hc
    obtain ⟨hl, rfl, rfl⟩ := creator_ok_inv hc
    obtain ⟨o2, h1, h2, h3⟩ := created_object_persists (.mutex ⟨none, 0⟩) hl hs
    cases o2 with
    | mutex m0 =>
      refine ⟨⟨false, n, some ⟨seg, (w.mem seg).index.length⟩⟩, ?_, rfl, by simp [SharedBase.arrow],
        ⟨m0, by simp [SharedMutex.read, SharedBase.reference, h3]⟩, rfl, ?_⟩
      · rw [SharedMutex_attach_eq, h1]; simp [Obj.tag]
      · intro m pid m1 hm hl1
        have hm0 : m0 = m := by
          simpa [SharedMutex.read, SharedBase.reference, h3] using hm
        subst hm0
        have hd := deref_store (.mutex m1) h3
        constructor <;>
          exact ⟨w2.store ⟨seg, (w.mem seg).index.length⟩ (.mutex m1),
            by simp [SharedMutex.lock, SharedBase.arrow, h3, hl1],
            by simp [SharedMutex.read, SharedBase.reference, hd]⟩
    | vector _ => simp [Obj.tag] at h2
    | map _ => simp [Obj.tag] at h2

/-- Claim C5 on the driver's objects: the vector the server built as
"EMP_VECTOR" is found by the attacher form in the world the server's `SC`
leaves, at the pointer the creator holds. -/
theorem create_then_attach_same_object_witness :
    ∃ h', SharedVector.attach "EMP_VECTOR" 0 serverWorld = (.ok h', serverWorld) ∧
      h'.arrow = some ⟨0, 1⟩ := by
  obtain ⟨h', h1, h2, _⟩ :=
    (create_then_attach_same_object "EMP_VECTOR" 0
        (SharedMap.ctor "EMP_MAP" 0 true (SharedMemory.create "EMP_SEGMENT" 65536 World.empty).2).2).1
      10 ⟨true, "EMP_VECTOR", some ⟨0, 1⟩⟩
      (SharedVector.create 10 "EMP_VECTOR" 0
        (SharedMap.ctor "EMP_MAP" 0 true
          (SharedMemory.create "EMP_SEGMENT" 65536 World.empty).2).2).2
      rfl serverWorld ⟨[("EMP_MTX", Tag.mutex)], rfl⟩
  exact ⟨h', h1, h2⟩

/-- Claim C6, refuted as stated: on the empty Region of `worldEMP` the attacher
form `SharedMap("EMP_MAP", segment, false)` is constructed without error, and
its `operator->` returns the null pointer; `reference()` reaches no object. -/
theorem attacher_handle_null_pointer :
    ∃ h, SharedMap.ctor "EMP_MAP" 0 false worldEMP = (.ok h, worldEMP) ∧
      h.arrow = none ∧ h.reference worldEMP = none :=
  ⟨⟨false, "EMP_MAP", none⟩, rfl, rfl, rfl⟩

/-- The attacher form of `SharedMemory` never sets `_object`: its `operator->`
returns the null pointer, where the creator form stores the address of
`_segment`. -/
theorem SharedMemory_attach_object_null (n : String) (w w1 : World) (h : SharedMemory)
    (ha : SharedMemory.attach n w = (.ok h, w1)) : h.base.arrow = none := by
  rw [SharedMemory_attach_eq] at ha
  cases hr : w.resolve n with
  | none => rw [hr] at ha; injection ha with h1 _; cases h1
  | some seg =>
    rw [hr] at ha
    injection ha with h1 _
    injection h1 with h1
    subst h1
    rfl

/-- Claim C6, amended: for every handle built in creator form (`SharedMemory`,
`SharedVector`, `SharedMap`, `SharedMutex`), and for every attacher-form
wrapper (`SharedVector`, `SharedMap`, `SharedMutex`) whose name is indexed in
the segment with the type of the wrapper, `operator->` returns a non-null
pointer to the internal object and `reference()` returns that same object. -/
theorem arrow_reaches_object (n : String) (seg : Nat) (w : World) :
    (∀ size h w1, SharedMemory.create n size w = (.ok h, w1) →
      h.base.arrow = some h._segment ∧ h.reference = some h._segment ∧
      w1.resolve n = some h._segment) ∧
    (∀ r h w1, SharedVector.create r n seg w = (.ok h, w1) →
      ∃ p, h.arrow = some p ∧ w1.deref p = some (.vector []) ∧
        h.reference w1 = some (.vector [])) ∧
    (∀ h w1, SharedMap.ctor n seg true w = (.ok h, w1) →
      ∃ p, h.arrow = some p ∧ w1.deref p = some (.map []) ∧
        h.reference w1 = some (.map [])) ∧
    (∀ h w1, SharedMutex.ctor n seg true w = (.ok h, w1) →
      ∃ p, h.arrow = some p ∧ w1.deref p = some (.mutex ⟨none, 0⟩) ∧
        h.reference w1 = some (.mutex ⟨none, 0⟩)) ∧
    (∀ i o, (w.mem seg).lookup n = some (i, o) → o.tag = .vector →
      ∃ h, SharedVector.attach n seg w = (.ok h, w) ∧ h.arrow = some ⟨seg, i⟩ ∧
        w.deref ⟨seg, i⟩ = some o ∧ h.reference w = some o) ∧
    (∀ i o, (w.mem seg).lookup n = some (i, o) → o.tag = .map →
      ∃ h, SharedMap.ctor n seg false w = (.ok h, w) ∧ h.arrow = some ⟨seg, i⟩ ∧
        w.deref ⟨seg, i⟩ = some o ∧ h.reference w = some o) ∧
    (∀ i o, (w.mem seg).lookup n = some (i, o) → o.tag = .mutex →
      ∃ h, SharedMutex.ctor n seg false w = (.ok h, w) ∧ h.arrow = some ⟨seg, i⟩ ∧
        w.deref ⟨seg, i⟩ = some o ∧ h.reference w = some o) := by
  refine ⟨?_, ?_, ?_, ?_, ?_, ?_, ?_⟩
  · intro size h w1 hc
    rw [SharedMemory_create_eq] at hc
    injection hc with h1 h2
    injection h1 with h1
    subst h1 h2
    exact ⟨rfl, rfl, resolve_append_self n w.next _
      ⟨w.names, Function.update w.mem w.next ⟨size, []⟩, w.next + 1⟩
      (resolve_remove_self n w)⟩
  · intro r h w1 hc
    rw [SharedVector_create_eq] at hc
    obtain ⟨_, rfl, rfl⟩ := creator_ok_inv hc
    have hd := deref_after_construct n seg (.vector []) w
      (w.names.filter (fun e => e.1 ≠ n)) w.next
    exact ⟨_, rfl, hd, by simpa [SharedBase.reference] using hd⟩
  · intro h w1 hc
    rw [SharedMap_create_eq] at hc
    obtain ⟨_, rfl, rfl⟩ := creator_ok_inv hc
    have hd := deref_after_construct n seg (.map []) w
      (w.names.filter (fun e => e.1 ≠ n)) w.next
    exact ⟨_, rfl, hd, by simpa [SharedBase.reference] using hd⟩
  · intro h w1 hc
    rw [SharedMutex_create_eq] at hc
    obtain ⟨_, rfl, rfl⟩ := creator_ok_inv hc
    have hd := deref_after_construct n seg (.mutex ⟨none, 0⟩) w
      (w.names.filter (fun e => e.1 ≠ n)) w.next
    exact ⟨_, rfl, hd, by simpa [SharedBase.reference] using hd⟩
  · intro i o hl ht
    obtain ⟨h1, h2⟩ := attacher_ok_of_lookup hl ht
    exact ⟨_, (SharedVector_attach_eq n seg w).trans h1, rfl, h2,
      by simpa [SharedBase.reference] using h2⟩
  · intro i o hl ht
    obtain ⟨h1, h2⟩ := attacher_ok_of_lookup hl ht
    exact ⟨_, (SharedMap_attach_eq n seg w).trans h1, rfl, h2,
      by simpa [SharedBase.reference] using h2⟩
  · intro i o hl ht
    obtain ⟨h1, h2⟩ := attacher_ok_of_lookup hl ht
    exact ⟨_, (SharedMutex_attach_eq n seg w).trans h1, rfl, h2,
      by simpa [SharedBase.reference] using h2⟩

/-- Claim C6, amended, on the driver's objects: the creator handle of the
segment of `worldEMP` and the attacher handle of the server's mutex. -/
theorem arrow_reaches_object_witness :
    (SharedBase.arrow (⟨true, "EMP", some 0⟩ : SharedBase Nat) = some 0) ∧
    (∃ h, SharedMutex.ctor "EMP_MTX" 0 false serverWorld = (.ok h, serverWorld) ∧
      h.arrow = some ⟨0, 2⟩ ∧
      serverWorld.deref ⟨0, 2⟩ = some (.mutex ⟨none, 0⟩) ∧
      h.reference serverWorld = some (.mutex ⟨none, 0⟩)) :=
  ⟨((arrow_reaches_object "EMP" 0 World.empty).1 65536
      ⟨⟨true, "EMP", some 0⟩, 0⟩ worldEMP rfl).1,
   (arrow_reaches_object "EMP_MTX" 0 serverWorld).2.2.2.2.2.2 2 (.mutex ⟨none, 0⟩) rfl rfl⟩

/-- A creator-form wrapper always removes its own name from the OS namespace,
whether its construction succeeds or not; an attacher-form wrapper leaves the
world as it is. -/
theorem wrapper_namespace_effect (n : String) (seg : Nat) (w : World) :
    (∀ r, (SharedVector.create r n seg w).2.resolve n = none) ∧
    (SharedMap.ctor n seg true w).2.resolve n = none ∧
    (SharedMutex.ctor n seg true w).2.resolve n = none ∧
    (SharedVector.attach n seg w).2 = w ∧
    (SharedMap.ctor n seg false w).2 = w ∧
    (SharedMutex.ctor n seg false w).2 = w := by
  have key : ∀ o, (match (w.mem seg).lookup n with
      | some _ =>
        ((.error .NameExists : Except Error (SharedBase Ptr)),
          shared_memory_object_remove n (shared_memory_object_remove n w))
      | none =>
        (.ok ⟨true, n, some ⟨seg, (w.mem seg).index.length⟩⟩,
          ⟨w.names.filter (fun e => e.1 ≠ n),
           Function.update w.mem seg
             ⟨(w.mem seg).size, (w.mem seg).index ++ [(n, o)]⟩, w.next⟩)).2.resolve n
      = none := by
    intro o
    cases (w.mem seg).lookup n with
    | some x => exact resolve_remove_self n _
    | none => exact resolve_remove_self n w
  have key2 : ∀ t, (match (w.mem seg).lookup n with
      | none => ((.ok ⟨false, n, none⟩ : Except Error (SharedBase Ptr)), w)
      | some (i, o) =>
        if o.tag = t then (.ok ⟨false, n, some ⟨seg, i⟩⟩, w)
        else (.error .TypeMismatch, w)).2 = w := by
    intro t
    cases (w.mem seg).lookup n with
    | none => rfl
    | some x =>
      obtain ⟨i, o⟩ := x
      by_cases ht : o.tag = t <;> simp [ht]
  refine ⟨fun r => ?_, ?_, ?_, ?_, ?_, ?_⟩
  · rw [SharedVector_create_eq]; exact key _
  · rw [SharedMap_create_eq]; exact key _
  · rw [SharedMutex_create_eq]; exact key _
  · rw [SharedVector_attach_eq]; exact key2 _
  · rw [SharedMap_attach_eq]; exact key2 _
  · rw [SharedMutex_attach_eq]; exact key2 _

/-- The handles of the server's `SC` and of a client's `SC` reach the same
three objects, which are empty and free after the server's construction. -/
theorem SC_objects_serverWorld :
    ∃ server client, (SC.create 65536 World.empty).1 = .ok server ∧
      (SC.attach serverWorld).1 = .ok client ∧
      (SC.attach serverWorld).2.names = serverWorld.names ∧
      server.objects serverWorld = some ⟨[], [], ⟨none, 0⟩⟩ ∧
      client.objects serverWorld = some ⟨[], [], ⟨none, 0⟩⟩ :=
  ⟨_, _, rfl, rfl, rfl, rfl, rfl⟩

/-- The destructor of the server's `SC` removes the segment from the OS
namespace: a client that comes afterwards fails with NotFound, while the
objects stay where the handles of earlier clients point. -/
theorem SC_dtor_unlinks_segment :
    ∃ server, (SC.create 65536 World.empty).1 = .ok server ∧
      (server.dtor serverWorld).names = [] ∧
      (SC.attach (server.dtor serverWorld)).1 = .error .NotFound ∧
      server.objects (server.dtor serverWorld) = some ⟨[], [], ⟨none, 0⟩⟩ :=
  ⟨_, rfl, rfl, rfl, rfl⟩

/-! ## Facts about the ordered map -/

theorem string.lt_irrefl (a : string) : string.lt a a = false := by
  induction a with
  | nil => rfl
  | cons x xs ih => simp [string.lt, ih]

theorem string.lt_trans {a b c : string} (h1 : string.lt a b = true)
    (h2 : string.lt b c = true) : string.lt a c = true := by
  induction a generalizing b c with
  | nil =>
    cases c with
    | nil => cases b <;> simp [string.lt] at h1 h2
    | cons z zs => rfl
  | cons x xs ih =>
    cases b with
    | nil => simp [string.lt] at h1
    | cons y ys =>
      cases c with
      | nil => simp [string.lt] at h2
      | cons z zs =>
        simp only [string.lt] at h1 h2 ⊢
        by_cases hxy : x < y
        · by_cases hyz : y < z
          · have : x < z := by omega
            simp [this]
          · have hzy : ¬ z < y := by
              intro hz; simp [hyz, hz] at h2
            have : x < z := by omega
            simp [this]
        · have hyx : ¬ y < x := by
            intro hy; simp [hxy, hy] at h1
          simp only [hxy, hyx, if_false] at h1
          have hxy2 : x = y := by omega
          subst hxy2
          by_cases hxz : x < z
          · simp [hxz]
          · have hzx : ¬ z < x := by
              intro hz; simp [hxz, hz] at h2
            simp only [hxz, hzx, if_false] at h2 ⊢
            exact ih h1 h2

theorem string.lt_total {a b : string} (h1 : string.lt a b = false)
    (h2 : string.lt b a = false) : a = b := by
  induction a generalizing b with
  | nil => cases b <;> simp [string.lt] at h1 ⊢
  | cons x xs ih =>
    cases b with
    | nil => simp [string.lt] at h2
    | cons y ys =>
      simp only [string.lt] at h1 h2
      by_cases hxy : x < y
      · simp [hxy] at h1
      · by_cases hyx : y < x
        · simp [hyx] at h2
        · simp only [hxy, hyx, if_false] at h1 h2
          have : x = y := by omega
          rw [this, ih h1 h2]

theorem string.lt_asymm {a b : string} (h : string.lt a b = true) :
    string.lt b a = false := by
  cases hb : string.lt b a
  · rfl
  · have := string.lt_trans h hb
    rw [string.lt_irrefl] at this
    cases this

theorem map.mem_insert {k : string} {v : Int} {m : List (string × Int)} {x : string × Int}
    (h : x ∈ map.insert k v m) : x = (k, v) ∨ x ∈ m := by
  induction m with
  | nil => simpa [map.insert] using h
  | cons e es ih =>
    simp only [map.insert] at h
    by_cases h1 : string.lt k e.1 = true
    · simpa [h1] using h
    · by_cases h2 : string.lt e.1 k = true
      · simp only [h1, h2, if_true, if_false, List.mem_cons, Bool.false_eq_true] at h
        rcases h with h | h
        · exact Or.inr (by simp [h])
        · rcases ih h with h | h
          · exact Or.inl h
          · exact Or.inr (by simp [h])
      · right
        simpa [h1, h2] using h

theorem map.mem_insert_of_absent {k : string} {v : Int} {m : List (string × Int)}
    (hk : ∀ e ∈ m, e.1 ≠ k) (x : string × Int) :
    x ∈ map.insert k v m ↔ x = (k, v) ∨ x ∈ m := by
  induction m with
  | nil => simp [map.insert]
  | cons e es ih =>
    have hes : ∀ e ∈ es, e.1 ≠ k := fun e he => hk e (by simp [he])
    simp only [map.insert]
    by_cases h1 : string.lt k e.1 = true
    · simp [h1]
    · by_cases h2 : string.lt e.1 k = true
      · simp only [h1, h2, if_true, if_false, List.mem_cons, Bool.false_eq_true, ih hes]
        tauto
      · exfalso
        apply hk e (by simp)
        exact string.lt_total (by simpa using h2) (by simpa using h1)

theorem map.length_insert_of_absent {k : string} {v : Int} {m : List (string × Int)}
    (hk : ∀ e ∈ m, e.1 ≠ k) : (map.insert k v m).length = m.length + 1 := by
  induction m with
  | nil => simp [map.insert]
  | cons e es ih =>
    have hes : ∀ e ∈ es, e.1 ≠ k := fun e he => hk e (by simp [he])
    simp only [map.insert]
    by_cases h1 : string.lt k e.1 = true
    · simp [h1]
    · by_cases h2 : string.lt e.1 k = true
      · simp [h1, h2, ih hes]
      · exfalso
        apply hk e (by simp)
        exact string.lt_total (by simpa using h2) (by simpa using h1)

theorem map.insert_of_present {k : string} {v : Int} {m : List (string × Int)}
    (ho : map.Ordered m) (hk : ∃ e ∈ m, e.1 = k) : map.insert k v m = m := by
  induction m with
  | nil => simp at hk
  | cons e es ih =>
    obtain ⟨ho1, ho2⟩ := List.pairwise_cons.1 ho
    simp only [map.insert]
    by_cases hek : e.1 = k
    · simp [hek, string.lt_irrefl]
    · have hk2 : ∃ e ∈ es, e.1 = k := by
        obtain ⟨x, hx, hxk⟩ := hk
        rcases List.mem_cons.1 hx with h | h
        · exact absurd (h ▸ hxk) hek
        · exact ⟨x, h, hxk⟩
      obtain ⟨x, hx, hxk⟩ := hk2
      have h2 : string.lt e.1 k = true := hxk ▸ ho1 x hx
      have h1 : string.lt k e.1 = false := string.lt_asymm h2
      simp [h1, h2, ih ho2 ⟨x, hx, hxk⟩]

theorem map.ordered_insert {k : string} {v : Int} {m : List (string × Int)}
    (ho : map.Ordered m) : map.Ordered (map.insert k v m) := by
  induction m with
  | nil => simp [map.insert, map.Ordered]
  | cons e es ih =>
    obtain ⟨ho1, ho2⟩ := List.pairwise_cons.1 ho
    simp only [map.insert]
    by_cases h1 : string.lt k e.1 = true
    · simp only [h1, if_true]
      refine List.pairwise_cons.2 ⟨?_, ho⟩
      intro x hx
      rcases List.mem_cons.1 hx with h | h
      · exact h ▸ h1
      · exact string.lt_trans h1 (ho1 x h)
    · by_cases h2 : string.lt e.1 k = true
      · simp only [h1, h2, if_true, if_false, Bool.false_eq_true]
        refine List.pairwise_cons.2 ⟨?_, ih ho2⟩
        intro x hx
        rcases map.mem_insert hx with h | h
        · exact h ▸ h2
        · exact ho1 x h
      · simpa [h1, h2] using ho

theorem map.ordered_nodup {m : List (string × Int)} (ho : map.Ordered m) :
    (m.map Prod.fst).Nodup := by
  unfold map.Ordered at ho
  rw [List.Nodup, List.pairwise_map]
  refine ho.imp ?_
  intro a b hab heq
  rw [heq, string.lt_irrefl] at hab
  cases hab

theorem string.lt_iff_lt (a b : string) : string.lt a b = true ↔ a < b := by
  show _ ↔ List.Lex (fun x y => x < y) a b
  induction a generalizing b with
  | nil =>
    cases b with
    | nil => simp [string.lt]
    | cons y ys => simp [string.lt, List.Lex.nil]
  | cons x xs ih =>
    cases b with
    | nil => simp [string.lt]
    | cons y ys =>
      simp only [string.lt]
      by_cases hxy : x < y
      · simp only [hxy, if_true, true_iff]
        exact List.Lex.rel hxy
      · by_cases hyx : y < x
        · simp only [hxy, hyx, if_true, if_false, Bool.false_eq_true, false_iff]
          intro h
          cases h with
          | rel h => exact hxy h
          | cons h => exact absurd hyx (Nat.lt_irrefl _)
        · simp only [hxy, hyx, if_false, ih]
          have hxy2 : x = y := by omega
          subst hxy2
          constructor
          · intro h
            exact List.Lex.cons h
          · intro h
            cases h with
            | rel h => exact absurd h hxy
            | cons h => exact h

theorem find_key_some {l : List (string × Int)} {k : string} {x : string × Int}
    (h : l.find? (fun kv => kv.1 = k) = some x) : x.1 = k ∧ x ∈ l := by
  have h1 := List.find?_some h
  exact ⟨by simpa using h1, List.mem_of_find?_eq_some h⟩

theorem map.insertAll_spec (ops seen m : List (string × Int)) (ho : map.Ordered m)
    (hm : ∀ k v, (k, v) ∈ m ↔ seen.find? (fun kv => kv.1 = k) = some (k, v)) :
    map.Ordered (map.insertAll ops m) ∧
    ∀ k v, (k, v) ∈ map.insertAll ops m ↔
      (seen ++ ops).find? (fun kv => kv.1 = k) = some (k, v) := by
  induction ops generalizing seen m with
  | nil => simpa [map.insertAll] using ⟨ho, hm⟩
  | cons kv rest ih =>
    obtain ⟨k0, v0⟩ := kv
    have key : ∀ k v, (k, v) ∈ map.insert k0 v0 m ↔
        (seen ++ [(k0, v0)]).find? (fun x => x.1 = k) = some (k, v) := by
      intro k v
      rw [List.find?_append]
      by_cases hp : ∃ e ∈ m, e.1 = k0
      · rw [map.insert_of_present ho hp, hm]
        obtain ⟨e, he, hek⟩ := hp
        by_cases hk : k0 = k
        · have h1 : seen.find? (fun x => x.1 = k) = some (k, e.2) := by
            rw [← hm, ← hk, ← hek]
            exact he
          simp [h1]
        · simp [List.find?_cons, hk]
      · have hp2 : ∀ e ∈ m, e.1 ≠ k0 := fun e he h => hp ⟨e, he, h⟩
        rw [map.mem_insert_of_absent hp2]
        by_cases hk : k0 = k
        · have h1 : seen.find? (fun x => x.1 = k) = none := by
            cases hf : seen.find? (fun x => x.1 = k) with
            | none => rfl
            | some x =>
              exfalso
              obtain ⟨hx1, _⟩ := find_key_some hf
              have hx2 : x = (k, x.2) := by rw [← hx1]
              rw [hx2] at hf
              exact hp2 (k, x.2) ((hm k x.2).2 hf) hk.symm
          have h2 : (k, v) ∉ m := fun h => hp2 (k, v) h hk.symm
          subst hk
          simp only [h1, Option.none_or, List.find?_cons, decide_True, h2, or_false,
            Option.some.injEq]
          exact eq_comm
        · have h2 : ¬ (k, v) = (k0, v0) := fun h => hk (by simp at h; exact h.1.symm)
          simp [List.find?_cons, hk, h2, hm]
    have := ih (seen ++ [(k0, v0)]) (map.insert k0 v0 m) (map.ordered_insert ho) key
    simpa [map.insertAll] using this

/-! ## The claims about `example.cpp` -/

/-- Claim C7: iteration of the map is ordered by key, whatever the order of
insertion. After any sequence `ops` of insert-if-absent calls on an empty
`SharedMap<ipc::string, int>`, the iteration from `begin()` to `end()` lists
the keys in strictly ascending byte-lexicographic order, each distinct key of
`ops` exactly once, paired with the value of its first insertion. For the
server's eight insertions (the loop run to its end), what `SC::show()` writes
for the map is Assad, Comey, Hillary, Jong, Kim, Obama, Putin, Un with the
recorded values. -/
theorem map_iteration_ordered (ops : List (string × Int)) :
    ((map.insertAll ops []).map Prod.fst).Pairwise (fun a b => a < b) ∧
    ((map.insertAll ops []).map Prod.fst).Nodup ∧
    (∀ k, k ∈ (map.insertAll ops []).map Prod.fst ↔ k ∈ ops.map Prod.fst) ∧
    (∀ k v, (k, v) ∈ map.insertAll ops [] ↔
      ops.find? (fun kv => kv.1 = k) = some (k, v)) ∧
    (match serverLoop 1 serverNames [1, 1, 1, 1, 1, 1, 1] 1001
        (serverInit ⟨[], [], ⟨none, 0⟩⟩).1 with
      | .ok (s, _) => (SC.show 2 s).map (fun (r : Shared × Shown) => r.2.map)
      | .error e => .error e)
      = .ok [(str "Assad", 1000), (str "Comey", 1007), (str "Hillary", 1003),
          (str "Jong", 1004), (str "Kim", 1002), (str "Obama", 1005),
          (str "Putin", 1001), (str "Un", 1006)] := by
  obtain ⟨ho, hm⟩ := map.insertAll_spec ops [] [] (by simp [map.Ordered]) (by simp)
  simp only [List.nil_append] at hm
  refine ⟨?_, map.ordered_nodup ho, ?_, hm, rfl⟩
  · rw [List.pairwise_map]
    exact ho.imp (fun h => (string.lt_iff_lt _ _).1 h)
  · intro k
    simp only [List.mem_map, Prod.exists, exists_and_right, exists_eq_right]
    constructor
    · rintro ⟨v, hv⟩
      exact ⟨v, (find_key_some ((hm k v).1 hv)).2⟩
    · rintro ⟨v, hv⟩
      cases hf : ops.find? (fun kv => kv.1 = k) with
      | none =>
        have := List.find?_eq_none.1 hf (k, v) hv
        simp at this
      | some x =>
        obtain ⟨hx1, _⟩ := find_key_some hf
        have hx2 : x = (k, x.2) := by rw [← hx1]
        rw [hx2] at hf
        exact ⟨x.2, (hm k x.2).2 hf⟩

end ipc

/-! ## The loop steps with the mutex free -/

theorem SC.show_held (pid c : Nat) (s : Shared) (h : s._mtx = ⟨some pid, c + 1⟩) :
    SC.show pid s
      = .ok (s, ⟨s._vector.map (fun e => (c_str e._name, e._empNum)), s._map⟩) := by
  obtain ⟨v, m, x⟩ := s
  simp only at h
  subst h
  simp [SC.show, RMutex.lock, RMutex.unlock]

theorem serverStep_free (alloc : Allocs) (pid : Nat) (n : String) (input num : Int)
    (s : Shared) (h : s._mtx.count = 0) :
    serverStep alloc pid n input num s =
      if input = 0 then .ok ({ s with _mtx := ⟨none, 0⟩ }, num, .broke)
      else match alloc with
        | .failAppend => .ok ({ s with _mtx := ⟨some pid, 1⟩ }, num, .terminated)
        | .failInsert =>
          .ok (⟨s._vector ++ [⟨str n, num⟩], s._map, ⟨some pid, 1⟩⟩, num, .terminated)
        | .succeed =>
          .ok (⟨s._vector ++ [⟨str n, num⟩], map.insert (str n) num s._map, ⟨none, 0⟩⟩,
            num + 1, .next) := by
  obtain ⟨v, m, x⟩ := s
  simp only at h
  have hs := SC.show_held pid 0 ⟨v, m, ⟨some pid, 1⟩⟩ rfl
  simp only [serverStep, RMutex.lock, h, if_true, hs]
  by_cases hi : input = 0
  · simp [hi, RMutex.unlock]
  · cases alloc <;> simp [hi, RMutex.unlock]

theorem clientStep_free (alloc : Allocs) (pid : Nat) (s : Shared) (e : employee)
    (h : s._mtx.count = 0) (he : s._vector.getLast? = some e) :
    clientStep alloc pid s =
      match alloc with
      | .failAppend => .ok ({ s with _mtx := ⟨some pid, 1⟩ }, .terminated)
      | .failInsert =>
        .ok (⟨s._vector ++ [⟨c_str (c_str e._name ++ str "-client"), e._empNum⟩], s._map,
          ⟨some pid, 1⟩⟩, .terminated)
      | .succeed =>
        .ok (⟨s._vector ++ [⟨c_str (c_str e._name ++ str "-client"), e._empNum⟩],
          map.insert (c_str (c_str e._name ++ str "-client")) e._empNum s._map,
          ⟨none, 0⟩⟩, .next) := by
  obtain ⟨v, m, x⟩ := s
  simp only at h he
  have hs := SC.show_held pid 0 ⟨v, m, ⟨some pid, 1⟩⟩ rfl
  simp only [clientStep, RMutex.lock, h, if_true, hs, he]
  cases alloc <;> simp [RMutex.unlock]

theorem c_str_of_no_nul {l : string} (h : ∀ b ∈ l, b ≠ 0) : c_str l = l := by
  unfold c_str
  rw [List.takeWhile_eq_self_iff]
  intro b hb
  simpa using h b hb

theorem c_str_no_nul (l : string) : ∀ b ∈ c_str l, b ≠ 0 := by
  intro b hb
  have := List.mem_takeWhile_imp hb
  simpa using this

theorem client_name_no_nul (l : string) : ∀ b ∈ c_str l ++ str "-client", b ≠ 0 := by
  intro b hb
  rcases List.mem_append.1 hb with h | h
  · exact c_str_no_nul l b h
  · have : ∀ x ∈ str "-client", x ≠ 0 := by decide
    exact this b h

theorem c_str_client_name (l : string) :
    c_str (c_str l ++ str "-client") = c_str l ++ str "-client" :=
  c_str_of_no_nul (client_name_no_nul l)

namespace ipc

end ipc

theorem nameLt_ne {a b : string} (h : nameLt a b) : a ≠ b := by
  rintro rfl
  rcases h with h | ⟨_, h⟩ <;> omega

theorem nameBase_client (l : string) : nameBase (l ++ str "-client") = nameBase l := by
  induction l with
  | nil => rfl
  | cons x xs ih =>
    simp only [nameBase, List.cons_append, List.takeWhile_cons] at ih ⊢
    rw [ih]

theorem nameRank_client (l : string) : nameRank (l ++ str "-client") = nameRank l := by
  unfold nameRank
  rw [nameBase_client]

theorem serverNames_drop (k : Nat) (hk : k ≤ 7) (n : String) (rest : List String)
    (h : serverNames.drop k = n :: rest) :
    nameRank (str n) = k + 1 ∧ rest = serverNames.drop (k + 1) ∧ (∀ b ∈ str n, b ≠ 0) ∧
      k + 1 ≤ 7 := by
  interval_cases k <;> simp only [serverNames, List.drop, List.cons.injEq] at h
  all_goals first
    | (obtain ⟨rfl, rfl⟩ := h; decide)
    | cases h

theorem Sys.Inv.absent {σ : Sys} (hI : σ.Inv) {key : string}
    (hlt : ∀ e ∈ σ.shared._vector, nameLt e._name key) :
    ∀ x ∈ σ.shared._map, x.1 ≠ key := by
  intro x hx hxk
  have hx2 : (x.1, x.2) ∈ σ.shared._map := hx
  obtain ⟨e, he, hn, _⟩ := (hI.corr x.1 x.2).1 hx2
  exact nameLt_ne (hlt e he) (hn.trans hxk)

theorem Sys.Inv.init : Sys.init.Inv where
  mtx := rfl
  nonempty := by decide
  nul := by decide
  prog := ⟨0, by decide, Or.inl rfl, by decide⟩
  incr := by
    show List.Pairwise _ [_]
    exact List.pairwise_singleton _ _
  corr := by
    intro k v
    show (k, v) ∈ [(str "Assad", (1000 : Int))] ↔
      ∃ e ∈ [employee.mk (str "Assad") 1000], e._name = k ∧ e._empNum = v
    simp only [List.mem_singleton, Prod.mk.injEq, exists_eq_left]
    constructor
    · rintro ⟨rfl, rfl⟩; exact ⟨rfl, rfl⟩
    · rintro ⟨rfl, rfl⟩; exact ⟨rfl, rfl⟩
  len := rfl

theorem Sys.Inv.push {σ : Sys} (hI : σ.Inv) (key : string) (v : Int) (pend : List String)
    (num1 : Int) (k1 : Nat)
    (hlt : ∀ e ∈ σ.shared._vector, nameLt e._name key) (hnul : ∀ b ∈ key, b ≠ 0)
    (hk1 : k1 ≤ 7) (hp : pend = serverNames.drop k1 ∨ pend = [])
    (hr : ∀ e ∈ σ.shared._vector, nameRank e._name ≤ k1) (hrk : nameRank key ≤ k1) :
    Sys.Inv ⟨⟨σ.shared._vector ++ [⟨key, v⟩], map.insert key v σ.shared._map, ⟨none, 0⟩⟩,
      pend, num1⟩ where
  mtx := rfl
  nonempty := by simp
  nul := by
    intro e he
    rcases List.mem_append.1 he with h | h
    · exact hI.nul e h
    · rw [List.mem_singleton.1 h]; exact hnul
  prog := by
    refine ⟨k1, hk1, hp, ?_⟩
    intro e he
    rcases List.mem_append.1 he with h | h
    · exact hr e h
    · rw [List.mem_singleton.1 h]; exact hrk
  incr := by
    show List.Pairwise _ (σ.shared._vector ++ [⟨key, v⟩])
    rw [List.pairwise_append]
    refine ⟨hI.incr, List.pairwise_singleton _ _, ?_⟩
    intro a ha b hb
    rw [List.mem_singleton.1 hb]
    exact hlt a ha
  corr := by
    intro k w
    show (k, w) ∈ map.insert key v σ.shared._map ↔
      ∃ e ∈ σ.shared._vector ++ [⟨key, v⟩], e._name = k ∧ e._empNum = w
    rw [map.mem_insert_of_absent (hI.absent hlt), hI.corr]
    constructor
    · rintro (h | ⟨e, he, h1, h2⟩)
      · injection h with h1 h2
        exact ⟨⟨key, v⟩, by simp, h1.symm, h2.symm⟩
      · exact ⟨e, by simp [he], h1, h2⟩
    · rintro ⟨e, he, h1, h2⟩
      rcases List.mem_append.1 he with h | h
      · exact Or.inr ⟨e, h, h1, h2⟩
      · left
        rw [List.mem_singleton.1 h] at h1 h2
        simp only at h1 h2
        rw [h1, h2]
  len := by
    show (map.insert key v σ.shared._map).length = (σ.shared._vector ++ [employee.mk key v]).length
    rw [map.length_insert_of_absent (hI.absent hlt), hI.len]
    simp

/-- A whole loop step keeps the invariant, and is never stuck. -/
theorem Sys.Inv.step {σ : Sys} (hI : σ.Inv) (a : Turn) :
    ∃ σ1, Sys.step a σ = .ok σ1 ∧ σ1.Inv := by
  have hfree : σ.shared._mtx.count = 0 := by rw [hI.mtx]
  obtain ⟨k, hk, hp, hr⟩ := hI.prog
  cases a with
  | server pid input =>
    cases hpend : σ.pending with
    | nil => exact ⟨σ, by simp [Sys.step, hpend], hI⟩
    | cons n rest =>
      have hdrop : serverNames.drop k = n :: rest := by
        rcases hp with h | h
        · rw [← h, hpend]
        · rw [hpend] at h; cases h
      obtain ⟨h1, h2, h3, h4⟩ := serverNames_drop k hk n rest hdrop
      simp only [Sys.step, hpend, serverStep_free .succeed pid n input σ.num σ.shared hfree]
      by_cases hi : input = 0
      · refine ⟨⟨{ σ.shared with _mtx := ⟨none, 0⟩ }, [], σ.num⟩, by simp [hi], ?_⟩
        have hs : ({ σ.shared with _mtx := ⟨none, 0⟩ } : Shared) = σ.shared := by
          rw [← hI.mtx]
        rw [hs]
        exact ⟨hI.mtx, hI.nonempty, hI.nul, ⟨k, hk, Or.inr rfl, hr⟩, hI.incr, hI.corr, hI.len⟩
      · refine ⟨⟨⟨σ.shared._vector ++ [⟨str n, σ.num⟩],
            map.insert (str n) σ.num σ.shared._map, ⟨none, 0⟩⟩, rest, σ.num + 1⟩,
          by simp [hi], ?_⟩
        apply hI.push (str n) σ.num rest (σ.num + 1) (k + 1) _ h3 h4 (Or.inl h2)
        · intro e he
          exact Nat.le_succ_of_le (hr e he)
        · omega
        · intro e he
          left
          have := hr e he
          omega
  | client pid =>
    obtain ⟨e, he⟩ : ∃ e, σ.shared._vector.getLast? = some e := by
      cases hv : σ.shared._vector.getLast? with
      | none => exact absurd (List.getLast?_eq_none_iff.1 hv) hI.nonempty
      | some e => exact ⟨e, rfl⟩
    obtain ⟨ys, hys⟩ := List.getLast?_eq_some_iff.1 he
    have hemem : e ∈ σ.shared._vector := by rw [hys]; simp
    have hnul := hI.nul e hemem
    have hkey : c_str (c_str e._name ++ str "-client") = e._name ++ str "-client" := by
      rw [c_str_client_name, c_str_of_no_nul hnul]
    simp only [Sys.step, clientStep_free .succeed pid σ.shared e hfree he, hkey]
    refine ⟨_, rfl, ?_⟩
    apply hI.push (e._name ++ str "-client") e._empNum σ.pending σ.num k _ _ hk hp hr
    · rw [nameRank_client]
      exact hr e hemem
    · intro x hx
      have hincr := hI.incr
      rw [hys] at hx hincr
      rw [List.pairwise_append] at hincr
      rcases List.mem_append.1 hx with h | h
      · have h1 := hincr.2.2 x h e (by simp)
        rcases h1 with h1 | ⟨h1, h2⟩
        · left; rw [nameRank_client]; exact h1
        · right
          refine ⟨by rw [nameRank_client]; exact h1, ?_⟩
          simp only [List.length_append]
          omega
      · rw [List.mem_singleton.1 h]
        right
        refine ⟨by rw [nameRank_client], ?_⟩
        simp only [List.length_append]
        have : 0 < (str "-client").length := by decide
        omega
    · have := client_name_no_nul e._name
      rw [c_str_of_no_nul hnul] at this
      exact this

/-- Every interleaving of whole loop steps runs to its end, into a state that
has the invariant. -/
theorem Sys.Inv.run (sched : List Turn) {σ : Sys} (hI : σ.Inv) :
    ∃ σ1, Sys.run sched σ = .ok σ1 ∧ σ1.Inv := by
  induction sched generalizing σ with
  | nil => exact ⟨σ, rfl, hI⟩
  | cons a as ih =>
    obtain ⟨σ1, h1, hI1⟩ := hI.step a
    obtain ⟨σ2, h2, hI2⟩ := ih hI1
    exact ⟨σ2, by simp only [Sys.run, h1, h2], hI2⟩

theorem Sys.Inv.server_fresh {σ : Sys} (hI : σ.Inv) {n : String} {rest : List String}
    (hpend : σ.pending = n :: rest) :
    ∀ e ∈ σ.shared._vector, nameLt e._name (str n) := by
  obtain ⟨k, hk, hp, hr⟩ := hI.prog
  have hdrop : serverNames.drop k = n :: rest := by
    rcases hp with h | h
    · rw [← h, hpend]
    · rw [hpend] at h; cases h
  obtain ⟨h1, _⟩ := serverNames_drop k hk n rest hdrop
  intro e he
  left
  have := hr e he
  omega

theorem Sys.Inv.client_fresh {σ : Sys} (hI : σ.Inv) {e : employee}
    (he : σ.shared._vector.getLast? = some e) :
    ∀ x ∈ σ.shared._vector, nameLt x._name (c_str (c_str e._name ++ str "-client")) := by
  obtain ⟨ys, hys⟩ := List.getLast?_eq_some_iff.1 he
  have hemem : e ∈ σ.shared._vector := by rw [hys]; simp
  rw [c_str_client_name, c_str_of_no_nul (hI.nul e hemem)]
  intro x hx
  have hincr := hI.incr
  rw [hys] at hx hincr
  rw [List.pairwise_append] at hincr
  rcases List.mem_append.1 hx with h | h
  · rcases hincr.2.2 x h e (by simp) with h1 | ⟨h1, h2⟩
    · left; rw [nameRank_client]; exact h1
    · right
      refine ⟨by rw [nameRank_client]; exact h1, ?_⟩
      simp only [List.length_append]
      omega
  · rw [List.mem_singleton.1 h]
    right
    refine ⟨by rw [nameRank_client], ?_⟩
    simp only [List.length_append]
    have : 0 < (str "-client").length := by decide
    omega

/-- Claim C10: the driver keeps the sequence and the map in one-to-one
correspondence. Every interleaving of whole server loop steps and whole
client loop steps, from the state after the server's initial insertion of
("Assad", 1000), runs through, and in the state it reaches the names in the
sequence are pairwise distinct, the map holds exactly the entries
name -> num of the elements of the sequence, the size of the map is the
length of the sequence, and the key that the next step of the server or of a
client inserts is not in the map, so that no insert is a no-op. -/
theorem driver_keeps_correspondence (sched : List Turn) :
    ∃ σ, Sys.run sched Sys.init = .ok σ ∧
      (σ.shared._vector.map employee._name).Nodup ∧
      (∀ k v, (k, v) ∈ σ.shared._map ↔
        ∃ e ∈ σ.shared._vector, e._name = k ∧ e._empNum = v) ∧
      σ.shared._map.length = σ.shared._vector.length ∧
      (∀ n rest, σ.pending = n :: rest → ∀ x ∈ σ.shared._map, x.1 ≠ str n) ∧
      (∀ e, σ.shared._vector.getLast? = some e →
        ∀ x ∈ σ.shared._map, x.1 ≠ c_str (c_str e._name ++ str "-client")) := by
  obtain ⟨σ, h1, hI⟩ := Sys.Inv.init.run sched
  refine ⟨σ, h1, ?_, hI.corr, hI.len, ?_, ?_⟩
  · rw [List.Nodup, List.pairwise_map]
    exact hI.incr.imp nameLt_ne
  · intro n rest hpend
    exact hI.absent (hI.server_fresh hpend)
  · intro e he
    exact hI.absent (hI.client_fresh he)
